import Mathlib

/-!
Verification development for the LuisAuthoringNode client (src/src/luis.ts and
the top-level script in src/unnamed/part_000).  The library's three core
mechanisms are shallowly embedded here:

* the paged-collection scanner `getAllPages` (luis.ts lines 50-61),
* the name-based finder `findInAllPages` (luis.ts lines 63-67) and its six
  per-resource wrappers,
* the training-completion poller
  `trainApplicationVersionAndWaitForCompletion` (luis.ts lines 563-586).

Remote HTTP endpoints are modelled as pure functions supplied as parameters
(a paged list endpoint becomes `Nat → Nat → List _`; the training-status
endpoint becomes a sequence `Nat → List ModelTrainingStatus` giving the
response to the i-th poll).  The two unbounded `do … while` loops are
embedded with an explicit fuel argument: a `none` result means the fuel ran
out (the real loop would still be running), and `some` carries the loop's
result together with instrumentation (number of remote calls made, and for
the poller the accumulated delay in milliseconds).
-/

/-- Training status enum from luis.ts line 3
(`enum TrainingStatus { Success = 0, Fail = 1, UpToDate = 2, InProgress = 3, Queued = 9}`).
The code only ever compares statuses for identity, so the numeric values are
irrelevant to the embedding. -/
inductive TrainingStatus where
  | Success
  | Fail
  | UpToDate
  | InProgress
  | Queued
deriving DecidableEq, Repr

/-- Model of the `details` object of one entry of the per-model training
status list returned by the remote get-training-status endpoint; the code
only reads `details.statusId` (luis.ts lines 574, 577, 579). -/
structure TrainingDetails where
  statusId : TrainingStatus
deriving DecidableEq, Repr

/-- Model of one entry of the per-model training status list: the code
accesses each entry `s` as `s.details.statusId`. -/
structure ModelTrainingStatus where
  details : TrainingDetails
deriving DecidableEq, Repr

/-- Embedding of `interface TrainingResult` (luis.ts lines 37-41): a success
flag, a status code, and an optional raw status payload (`status?: any`,
which in the code is only ever the raw per-model status list). -/
structure TrainingResult where
  success : Bool
  statusId : TrainingStatus
  status : Option (List ModelTrainingStatus)
deriving DecidableEq, Repr

/-- Loop body of `getAllPages` (luis.ts lines 50-61).  State: `skip` and the
accumulated `results` exactly as in the source (`skip` is re-assigned to
`results.length` after each page), plus instrumentation `calls` counting the
fetch requests issued so far.  One fuel unit is spent per iteration of the
`do … while (page.length === take)` loop; `none` means the fuel ran out
before the loop exited. -/
def getAllPagesAux {α : Type} (pagedFunction : Nat → Nat → List α) (take skip : Nat)
    (results : List α) (calls : Nat) : Nat → Option (List α × Nat)
  | 0 => none
  | fuel + 1 =>
    let page := pagedFunction skip take
    let results2 := results ++ page
    if page.length = take then
      getAllPagesAux pagedFunction take results2.length results2 (calls + 1) fuel
    else
      some (results2, calls + 1)

/-- Embedding of `getAllPages` (luis.ts lines 50-61): `skip` starts at 0,
`take` is fixed at 100, `results` starts empty.  Returns the accumulated
collection together with the number of fetch requests issued. -/
def getAllPages {α : Type} (pagedFunction : Nat → Nat → List α) (fuel : Nat) :
    Option (List α × Nat) :=
  getAllPagesAux pagedFunction 100 0 [] 0 fuel

/-- Environment model of a remote paged list endpoint that serves a fixed
ordered collection page by page: the page at offset `skip` of size `take` is
the next `min take (remaining)` items. -/
def pagedOf {α : Type} (coll : List α) (skip take : Nat) : List α :=
  (coll.drop skip).take take

/-- Model of a resource item of a remote collection as the finders use it:
the filter predicates read `.name` and `findInAllPages` reads `.id`
(luis.ts line 66).  `id = none` models an absent/undefined `id` field. -/
structure ResourceItem where
  name : String
  id : Option String
deriving DecidableEq, Repr

/-- Embedding of `findInAllPages` (luis.ts lines 63-67): fetch the whole
collection via `getAllPages`, filter it, and return
`filteredItems && filteredItems[0] && filteredItems[0].id`.  The filtered
array itself is always truthy; if it is empty, `filteredItems[0]` is
undefined and the whole expression is undefined, otherwise the expression is
the first item's `id` (itself possibly undefined).  The outer `Option` is
fuel exhaustion of `getAllPages`; the inner `Option String` is the
string-or-undefined JavaScript value returned. -/
def findInAllPages (pagedFunction : Nat → Nat → List ResourceItem)
    (filter : ResourceItem → Bool) (fuel : Nat) : Option (Option String) :=
  match getAllPages pagedFunction fuel with
  | none => none
  | some (items, _) =>
    let filteredItems := items.filter filter
    some (filteredItems.head?.bind fun item => item.id)

/-- Environment model of `getApplicationsList` (luis.ts lines 157-159): the
remote GET serving the fixed collection `apps` of the user's applications. -/
def getApplicationsList (apps : List ResourceItem) (skip take : Nat) : List ResourceItem :=
  (apps.drop skip).take take

/-- Embedding of `findApplication` (luis.ts lines 167-172): scan the
application list and filter by `app.name === name`. -/
def findApplication (apps : List ResourceItem) (name : String) (fuel : Nat) :
    Option (Option String) :=
  findInAllPages (fun skip take => getApplicationsList apps skip take)
    (fun app => decide (app.name = name)) fuel

/-- Environment model of `getVersionIntentList` (luis.ts lines 476-478). -/
def getVersionIntentList (intents : List ResourceItem) (skip take : Nat) : List ResourceItem :=
  (intents.drop skip).take take

/-- Embedding of `findVersionIntent` (luis.ts lines 488-493). -/
def findVersionIntent (intents : List ResourceItem) (intentName : String) (fuel : Nat) :
    Option (Option String) :=
  findInAllPages (fun skip take => getVersionIntentList intents skip take)
    (fun intent => decide (intent.name = intentName)) fuel

/-- Environment model of `getVersionEntityList` (luis.ts lines 418-420). -/
def getVersionEntityList (entities : List ResourceItem) (skip take : Nat) : List ResourceItem :=
  (entities.drop skip).take take

/-- Embedding of `findVersionEntity` (luis.ts lines 430-435). -/
def findVersionEntity (entities : List ResourceItem) (entityName : String) (fuel : Nat) :
    Option (Option String) :=
  findInAllPages (fun skip take => getVersionEntityList entities skip take)
    (fun entity => decide (entity.name = entityName)) fuel

/-- Environment model of `getVersionHierarchicalEntityList` (luis.ts lines 447-449). -/
def getVersionHierarchicalEntityList (entities : List ResourceItem) (skip take : Nat) :
    List ResourceItem :=
  (entities.drop skip).take take

/-- Embedding of `findVersionHierarchicalEntity` (luis.ts lines 459-464). -/
def findVersionHierarchicalEntity (entities : List ResourceItem) (entityName : String)
    (fuel : Nat) : Option (Option String) :=
  findInAllPages (fun skip take => getVersionHierarchicalEntityList entities skip take)
    (fun entity => decide (entity.name = entityName)) fuel

/-- Environment model of `getVersionClosedListList` (luis.ts lines 389-391). -/
def getVersionClosedListList (entities : List ResourceItem) (skip take : Nat) :
    List ResourceItem :=
  (entities.drop skip).take take

/-- Embedding of `findVersionClosedListEntity` (luis.ts lines 401-406). -/
def findVersionClosedListEntity (entities : List ResourceItem) (entityName : String)
    (fuel : Nat) : Option (Option String) :=
  findInAllPages (fun skip take => getVersionClosedListList entities skip take)
    (fun entity => decide (entity.name = entityName)) fuel

/-- Environment model of `getVersionPrebuiltEntityList` (luis.ts lines 505-507). -/
def getVersionPrebuiltEntityList (entities : List ResourceItem) (skip take : Nat) :
    List ResourceItem :=
  (entities.drop skip).take take

/-- Embedding of `findVersionPrebuiltEntity` (luis.ts lines 517-522). -/
def findVersionPrebuiltEntity (entities : List ResourceItem) (entityName : String)
    (fuel : Nat) : Option (Option String) :=
  findInAllPages (fun skip take => getVersionPrebuiltEntityList entities skip take)
    (fun entity => decide (entity.name = entityName)) fuel

/-- JavaScript truthiness of the string-or-undefined value the finders
return: `undefined` and the empty string are falsy, every other string is
truthy. -/
def jsTruthy : Option String → Bool
  | none => false
  | some s => decide (s ≠ "")

/-- Embedding of the find-or-create sequence of the top-level script
(src/unnamed/part_000 lines 14-18):
`let appId = await luis.apps.findApplication("Test");
 if (!appId) { appId = await luis.apps.addApplication(...); }`.
`createdId` is the identifier the remote creation call would return.  The
result pairs the resolved identifier with a flag recording whether the
creation call was issued. -/
def findOrCreateApplication (apps : List ResourceItem) (name : String) (createdId : String)
    (fuel : Nat) : Option (Option String × Bool) :=
  match findApplication apps name fuel with
  | none => none
  | some appId =>
    if jsTruthy appId then some (appId, false)
    else some (some createdId, true)

/-- Polling loop of `trainApplicationVersionAndWaitForCompletion` (luis.ts
lines 571-575): each iteration waits 500 ms (`await this.delay(500)`),
fetches the per-model status list (`polls i` is the response to the i-th
fetch), and continues while some entry has status `InProgress`.  On exit it
returns the final `currentStatus` list, the number of status fetches made
(`i + 1`), and the total delay waited in milliseconds.  One fuel unit is
spent per iteration; `none` means the fuel ran out while entries were still
in progress. -/
def pollLoop (polls : Nat → List ModelTrainingStatus) :
    Nat → Nat → Nat → Option (List ModelTrainingStatus × Nat × Nat)
  | 0, _, _ => none
  | fuel + 1, i, delayMs =>
    let currentStatus := polls i
    let inProgress :=
      currentStatus.any fun s => decide (s.details.statusId = TrainingStatus.InProgress)
    if inProgress then pollLoop polls fuel (i + 1) (delayMs + 500)
    else some (currentStatus, i + 1, delayMs + 500)

/-- Aggregation of the final per-model status list on loop exit (luis.ts
lines 577-583): any `Fail` entry means failure with the raw list attached;
else all `UpToDate` means success with status `UpToDate`; else success with
status `Success`. -/
def classifyTrainingOutcome (currentStatus : List ModelTrainingStatus) : TrainingResult :=
  if currentStatus.any (fun s => decide (s.details.statusId = TrainingStatus.Fail)) then
    { success := false, statusId := TrainingStatus.Fail, status := some currentStatus }
  else if currentStatus.all (fun s => decide (s.details.statusId = TrainingStatus.UpToDate)) then
    { success := true, statusId := TrainingStatus.UpToDate, status := none }
  else
    { success := true, statusId := TrainingStatus.Success, status := none }

/-- Embedding of `trainApplicationVersionAndWaitForCompletion` (luis.ts
lines 563-586).  `initialStatusId` is the `statusId` of the response to the
training-start call; `polls` gives the responses to the successive status
fetches.  The result carries the `TrainingResult` together with the number
of status-poll calls made and the total delay in milliseconds; `none` means
the polling loop's fuel ran out. -/
def trainApplicationVersionAndWaitForCompletion (initialStatusId : TrainingStatus)
    (polls : Nat → List ModelTrainingStatus) (fuel : Nat) :
    Option (TrainingResult × Nat × Nat) :=
  let result : TrainingResult :=
    { success := false, statusId := TrainingStatus.Fail, status := none }
  if initialStatusId = TrainingStatus.UpToDate then
    some ({ success := true, statusId := TrainingStatus.UpToDate, status := none }, 0, 0)
  else if initialStatusId = TrainingStatus.Queued then
    match pollLoop polls fuel 0 0 with
    | none => none
    | some (currentStatus, n, d) => some (classifyTrainingOutcome currentStatus, n, d)
  else
    some (result, 0, 0)

/-- Main invariant of the scanner run against a fixed collection: from any
state where the accumulated `results` form the prefix `pre` of the
collection (and `skip = pre.length`, as the source maintains), enough fuel
yields the whole collection with `rest.length / 100 + 1` further fetches. -/
lemma getAllPagesAux_fixed {α : Type} (coll : List α) :
    ∀ (fuel : Nat) (pre rest : List α) (calls : Nat),
      coll = pre ++ rest →
      rest.length / 100 + 1 ≤ fuel →
      getAllPagesAux (pagedOf coll) 100 pre.length pre calls fuel
        = some (coll, calls + (rest.length / 100 + 1)) := by
  intro fuel
  induction fuel with
  | zero => intro pre rest calls hcoll hfuel; omega
  | succ fuel ih =>
    intro pre rest calls hcoll hfuel
    have hdrop : coll.drop pre.length = rest := by
      rw [hcoll]; exact List.drop_left pre rest
    have hpage : pagedOf coll pre.length 100 = rest.take 100 := by
      unfold pagedOf; rw [hdrop]
    rw [getAllPagesAux]
    simp only [hpage]
    by_cases h100 : 100 ≤ rest.length
    · have hlen : (rest.take 100).length = 100 := by
        rw [List.length_take]; omega
      rw [hlen, if_pos rfl]
      have hcoll2 : coll = (pre ++ rest.take 100) ++ rest.drop 100 := by
        rw [List.append_assoc, List.take_append_drop]; exact hcoll
      have hfuel2 : (rest.drop 100).length / 100 + 1 ≤ fuel := by
        rw [List.length_drop]; omega
      rw [ih (pre ++ rest.take 100) (rest.drop 100) (calls + 1) hcoll2 hfuel2]
      have harith : calls + 1 + ((rest.drop 100).length / 100 + 1)
          = calls + (rest.length / 100 + 1) := by
        rw [List.length_drop]; omega
      rw [harith]
    · have htake : rest.take 100 = rest := List.take_of_length_le (by omega)
      have hlen : rest.length ≠ 100 := by omega
      rw [htake, if_neg hlen, ← hcoll]
      have harith : calls + 1 = calls + (rest.length / 100 + 1) := by omega
      rw [harith]

/-- Run of the scanner from its initial state against a fixed collection:
with enough fuel it returns exactly the collection after
`collection length / 100 + 1` fetches. -/
lemma getAllPages_pagedOf {α : Type} (coll : List α) (fuel : Nat)
    (hfuel : coll.length / 100 + 1 ≤ fuel) :
    getAllPages (pagedOf coll) fuel = some (coll, coll.length / 100 + 1) := by
  have h := getAllPagesAux_fixed coll fuel [] coll 0 rfl hfuel
  simpa [getAllPages] using h

/-- Head of a filtered list is the first element satisfying the filter. -/
lemma head?_filter_eq_find? {α : Type} (p : α → Bool) :
    ∀ l : List α, (l.filter p).head? = l.find? p := by
  intro l
  induction l with
  | nil => rfl
  | cons a t ih =>
    by_cases h : p a
    · simp [List.filter_cons, h]
    · simp [List.filter_cons, h, ih]

/-- Behaviour of `findInAllPages` against a fixed collection: it returns the
`id` of the first item satisfying the filter, undefined when there is none
(or when the first match has no `id`). -/
lemma findInAllPages_fixed (coll : List ResourceItem) (p : ResourceItem → Bool) (fuel : Nat)
    (hfuel : coll.length / 100 + 1 ≤ fuel) :
    findInAllPages (pagedOf coll) p fuel
      = some ((coll.find? p).bind fun item => item.id) := by
  unfold findInAllPages
  rw [getAllPages_pagedOf coll fuel hfuel]
  simp [head?_filter_eq_find?]

/-- Exit behaviour of the polling loop: if the responses to polls
`i, …, i + k - 1` each contain an in-progress entry and the response to poll
`i + k` does not, the loop exits right after that poll, having made `k + 1`
fetches from `i` on and waited 500 ms per iteration. -/
lemma pollLoop_exits (polls : Nat → List ModelTrainingStatus) :
    ∀ (k fuel i delayMs : Nat),
      (∀ j, j < k → (polls (i + j)).any
          (fun s => decide (s.details.statusId = TrainingStatus.InProgress)) = true) →
      (polls (i + k)).any
          (fun s => decide (s.details.statusId = TrainingStatus.InProgress)) = false →
      k < fuel →
      pollLoop polls fuel i delayMs
        = some (polls (i + k), i + k + 1, delayMs + 500 * (k + 1)) := by
  intro k
  induction k with
  | zero =>
    intro fuel i delayMs hrun hstop hfuel
    match fuel, hfuel with
    | fuel + 1, _ =>
      rw [pollLoop]
      rw [Nat.add_zero] at hstop
      simp [hstop]
  | succ k ih =>
    intro fuel i delayMs hrun hstop hfuel
    match fuel, hfuel with
    | fuel + 1, hfuel =>
      rw [pollLoop]
      have h0 : (polls i).any
          (fun s => decide (s.details.statusId = TrainingStatus.InProgress)) = true := by
        have := hrun 0 (Nat.succ_pos k)
        rwa [Nat.add_zero] at this
      simp only [h0, eq_self_iff_true, if_true]
      have hrun2 : ∀ j, j < k → (polls (i + 1 + j)).any
          (fun s => decide (s.details.statusId = TrainingStatus.InProgress)) = true := by
        intro j hj
        have e : i + 1 + j = i + (j + 1) := by omega
        rw [e]
        exact hrun (j + 1) (by omega)
      have hstop2 : (polls (i + 1 + k)).any
          (fun s => decide (s.details.statusId = TrainingStatus.InProgress)) = false := by
        have e : i + 1 + k = i + (k + 1) := by omega
        rw [e]; exact hstop
      rw [ih fuel (i + 1) (delayMs + 500) hrun2 hstop2 (by omega)]
      have e : i + 1 + k = i + (k + 1) := by omega
      rw [e]
      simp only [Option.some.injEq, Prod.mk.injEq, eq_self_iff_true, true_and]
      omega

/-- Non-termination half of the scanner analysis: if every page the scanner
can ever fetch (at offsets that are multiples of 100) is full, the loop
never exits, whatever the fuel. -/
lemma getAllPagesAux_full_none {α : Type} (f : Nat → Nat → List α)
    (hfull : ∀ k, (f (100 * k) 100).length = 100) :
    ∀ (fuel k : Nat) (results : List α) (calls : Nat), results.length = 100 * k →
      getAllPagesAux f 100 results.length results calls fuel = none := by
  intro fuel
  induction fuel with
  | zero => intro k results calls h; rfl
  | succ fuel ih =>
    intro k results calls h
    rw [getAllPagesAux]
    have hp : (f results.length 100).length = 100 := by rw [h]; exact hfull k
    simp only [hp, eq_self_iff_true, if_true]
    have hlen : (results ++ f results.length 100).length = 100 * (k + 1) := by
      rw [List.length_append, hp, h]; ring
    exact ih (k + 1) (results ++ f results.length 100) (calls + 1) hlen

/-- Termination half of the scanner analysis: if the pages at offsets
`results.length, results.length + 100, …` are full for `k` steps and the
`k`-th one is short, the loop exits right after fetching the short page,
having made `k + 1` further fetch requests. -/
lemma getAllPagesAux_stops_short {α : Type} (f : Nat → Nat → List α) :
    ∀ (k fuel : Nat) (results : List α) (calls : Nat),
      (∀ j, j < k → (f (results.length + 100 * j) 100).length = 100) →
      (f (results.length + 100 * k) 100).length < 100 →
      k < fuel →
      ∃ res : List α,
        getAllPagesAux f 100 results.length results calls fuel
          = some (res, calls + (k + 1)) := by
  intro k
  induction k with
  | zero =>
    intro fuel results calls hfull hshort hfuel
    match fuel, hfuel with
    | fuel + 1, _ =>
      refine ⟨results ++ f results.length 100, ?_⟩
      rw [getAllPagesAux]
      rw [Nat.mul_zero, Nat.add_zero] at hshort
      have hne : (f results.length 100).length ≠ 100 := by omega
      simp only [if_neg hne]
  | succ k ih =>
    intro fuel results calls hfull hshort hfuel
    match fuel, hfuel with
    | fuel + 1, hfuel =>
      have h0 : (f results.length 100).length = 100 := by
        have := hfull 0 (Nat.succ_pos k)
        rwa [Nat.mul_zero, Nat.add_zero] at this
      have hlen2 : (results ++ f results.length 100).length = results.length + 100 := by
        rw [List.length_append, h0]
      have hfull2 : ∀ j, j < k →
          (f ((results ++ f results.length 100).length + 100 * j) 100).length = 100 := by
        intro j hj
        rw [hlen2]
        have e : results.length + 100 + 100 * j = results.length + 100 * (j + 1) := by ring
        rw [e]
        exact hfull (j + 1) (by omega)
      have hshort2 :
          (f ((results ++ f results.length 100).length + 100 * k) 100).length < 100 := by
        rw [hlen2]
        have e : results.length + 100 + 100 * k = results.length + 100 * (k + 1) := by ring
        rw [e]
        exact hshort
      obtain ⟨res, hres⟩ :=
        ih fuel (results ++ f results.length 100) (calls + 1) hfull2 hshort2 (by omega)
      refine ⟨res, ?_⟩
      rw [getAllPagesAux]
      simp only [h0, eq_self_iff_true, if_true]
      rw [hres]
      simp only [Option.some.injEq, Prod.mk.injEq, eq_self_iff_true, true_and]
      omega

/-- C4: for the page size `N = 100` used by `getAllPages` and any fetch
function serving a fixed ordered collection of `M` items page by page,
`getAllPages` returns exactly the `M` items of the collection and issues
`⌈(M + 1) / N⌉` fetch requests when `M` is an exact multiple of `N` and
`⌈M / N⌉` requests otherwise (ceilings written as `(a + 99) / 100`). -/
theorem getAllPages_full_collection_and_request_count {α : Type} (coll : List α) (fuel : Nat)
    (hfuel : coll.length / 100 + 1 ≤ fuel) :
    getAllPages (pagedOf coll) fuel
      = some (coll,
          if coll.length % 100 = 0 then (coll.length + 1 + 99) / 100
          else (coll.length + 99) / 100) := by
  rw [getAllPages_pagedOf coll fuel hfuel]
  have harith : coll.length / 100 + 1
      = if coll.length % 100 = 0 then (coll.length + 1 + 99) / 100
        else (coll.length + 99) / 100 := by
    by_cases h : coll.length % 100 = 0
    · rw [if_pos h]; omega
    · rw [if_neg h]; omega
  rw [harith]

/-- Witness for C4 at a concrete collection of 3 items: one request. -/
theorem getAllPages_full_collection_and_request_count_witness :
    getAllPages (pagedOf [1, 2, 3]) 1 = some ([1, 2, 3], 1) :=
  getAllPages_full_collection_and_request_count [1, 2, 3] 1 (by decide)

/-- C5: for a fetch function whose pages never exceed the page size 100,
the `getAllPages` loop stops immediately after the first fetched page of
length strictly less than 100 (the pages fetched sit at offsets
`0, 100, 200, …` while pages stay full), and if every fetched page has
length exactly 100 the loop never terminates (it returns `none` for every
fuel). -/
theorem getAllPages_short_page_termination {α : Type} :
    (∀ f : Nat → Nat → List α,
      (∀ k, (f (100 * k) 100).length = 100) →
      ∀ fuel, getAllPages f fuel = none) ∧
    (∀ f : Nat → Nat → List α,
      (∀ skip take, (f skip take).length ≤ take) →
      ∀ k fuel,
        (∀ j, j < k → ¬ (f (100 * j) 100).length < 100) →
        (f (100 * k) 100).length < 100 →
        k < fuel →
        ∃ res : List α, getAllPages f fuel = some (res, k + 1)) := by
  constructor
  · intro f hfull fuel
    have h := getAllPagesAux_full_none f hfull fuel 0 [] 0 (by simp)
    simpa [getAllPages] using h
  · intro f hbound k fuel hfull hshort hfuel
    have hfull2 : ∀ j, j < k →
        (f (([] : List α).length + 100 * j) 100).length = 100 := by
      intro j hj
      have h1 := hbound (100 * j) 100
      have h2 := hfull j hj
      simp only [List.length_nil, Nat.zero_add]
      omega
    have hshort2 : (f (([] : List α).length + 100 * k) 100).length < 100 := by
      simpa using hshort
    obtain ⟨res, hres⟩ := getAllPagesAux_stops_short f k fuel [] 0 hfull2 hshort2 hfuel
    exact ⟨res, by simpa [getAllPages] using hres⟩

/-- Witness for C5: an always-full fetch function never terminates, and a
fetch function whose very first page is short (empty) stops after one
request. -/
theorem getAllPages_short_page_termination_witness :
    getAllPages (fun _ _ => List.replicate 100 0) 7 = none ∧
    ∃ res : List Nat, getAllPages (fun _ _ => ([] : List Nat)) 3 = some (res, 1) := by
  constructor
  · exact (@getAllPages_short_page_termination Nat).1 _ (fun k => by simp) 7
  · exact (@getAllPages_short_page_termination Nat).2 _ (fun s t => by simp) 0 3
      (fun j hj => absurd hj (by omega)) (by simp) (by omega)

/-- C6: each of the six find operations filters the full scanned collection
by exact case-sensitive equality of the item's name with the given name and
returns the `id` of the first matching item; with no matching item the
returned identifier is undefined (`none`).  Stated via `List.find?`: the
result is the first match's `id`, and `none` when there is no match. -/
theorem find_operations_first_match (coll : List ResourceItem) (name : String) (fuel : Nat)
    (hfuel : coll.length / 100 + 1 ≤ fuel) :
    findApplication coll name fuel
        = some ((coll.find? fun it => decide (it.name = name)).bind fun it => it.id) ∧
    findVersionIntent coll name fuel
        = some ((coll.find? fun it => decide (it.name = name)).bind fun it => it.id) ∧
    findVersionEntity coll name fuel
        = some ((coll.find? fun it => decide (it.name = name)).bind fun it => it.id) ∧
    findVersionHierarchicalEntity coll name fuel
        = some ((coll.find? fun it => decide (it.name = name)).bind fun it => it.id) ∧
    findVersionClosedListEntity coll name fuel
        = some ((coll.find? fun it => decide (it.name = name)).bind fun it => it.id) ∧
    findVersionPrebuiltEntity coll name fuel
        = some ((coll.find? fun it => decide (it.name = name)).bind fun it => it.id) := by
  refine ⟨?_, ?_, ?_, ?_, ?_, ?_⟩ <;>
    exact findInAllPages_fixed coll (fun it => decide (it.name = name)) fuel hfuel

/-- Witness for C6 at a two-item collection: each find operation returns
the id of the (first) item named "Search". -/
theorem find_operations_first_match_witness :
    findApplication [⟨"None", some "id-0"⟩, ⟨"Search", some "id-1"⟩] "Search" 1
        = some (some "id-1") ∧
    findVersionIntent [⟨"None", some "id-0"⟩, ⟨"Search", some "id-1"⟩] "Search" 1
        = some (some "id-1") ∧
    findVersionEntity [⟨"None", some "id-0"⟩, ⟨"Search", some "id-1"⟩] "Search" 1
        = some (some "id-1") ∧
    findVersionHierarchicalEntity [⟨"None", some "id-0"⟩, ⟨"Search", some "id-1"⟩] "Search" 1
        = some (some "id-1") ∧
    findVersionClosedListEntity [⟨"None", some "id-0"⟩, ⟨"Search", some "id-1"⟩] "Search" 1
        = some (some "id-1") ∧
    findVersionPrebuiltEntity [⟨"None", some "id-0"⟩, ⟨"Search", some "id-1"⟩] "Search" 1
        = some (some "id-1") :=
  find_operations_first_match [⟨"None", some "id-0"⟩, ⟨"Search", some "id-1"⟩] "Search" 1
    (by decide)

/-- C7: find-or-create is idempotent against a stable remote collection —
if the collection already contains an item with the requested name whose
`id` is a proper (truthy) identifier, every invocation of the find-or-create
sequence returns that same identifier and issues no creation call, so in
particular a second invocation agrees with the first. -/
theorem findOrCreateApplication_idempotent (coll : List ResourceItem) (name theId : String)
    (item : ResourceItem) (fuel : Nat)
    (hfind : coll.find? (fun it => decide (it.name = name)) = some item)
    (hid : item.id = some theId)
    (hne : theId ≠ "")
    (hfuel : coll.length / 100 + 1 ≤ fuel) :
    ∀ createdId1 createdId2 : String,
      findOrCreateApplication coll name createdId1 fuel = some (some theId, false) ∧
      findOrCreateApplication coll name createdId2 fuel
        = findOrCreateApplication coll name createdId1 fuel := by
  have hfd : findApplication coll name fuel = some (some theId) := by
    have h := findInAllPages_fixed coll (fun it => decide (it.name = name)) fuel hfuel
    rw [hfind] at h
    simp only [Option.some_bind] at h
    rw [hid] at h
    exact h
  have htr : jsTruthy (some theId) = true := by
    simp [jsTruthy, hne]
  have heach : ∀ c : String,
      findOrCreateApplication coll name c fuel = some (some theId, false) := by
    intro c
    unfold findOrCreateApplication
    rw [hfd]
    simp [htr]
  intro c1 c2
  exact ⟨heach c1, by rw [heach c1, heach c2]⟩

/-- Witness for C7: the collection already holds "Test" with id "abc"; the
sequence resolves to "abc" without creating, for two different would-be
created ids. -/
theorem findOrCreateApplication_idempotent_witness :
    findOrCreateApplication [⟨"Test", some "abc"⟩] "Test" "fresh-1" 1
        = some (some "abc", false) ∧
    findOrCreateApplication [⟨"Test", some "abc"⟩] "Test" "fresh-2" 1
        = findOrCreateApplication [⟨"Test", some "abc"⟩] "Test" "fresh-1" 1 :=
  findOrCreateApplication_idempotent [⟨"Test", some "abc"⟩] "Test" "abc"
    ⟨"Test", some "abc"⟩ 1 (by decide) rfl (by decide) (by decide) "fresh-1" "fresh-2"

/-- C10: if the first item of the scanned collection matching the requested
name has an absent or falsy `id` (undefined or the empty string),
`findInAllPages` returns that falsy value, so the caller's find-or-create
sequence treats the resource as absent and issues the creation call even
though an item with that name exists. -/
theorem findApplication_falsy_id (coll : List ResourceItem) (name : String)
    (item : ResourceItem) (fuel : Nat)
    (hfind : coll.find? (fun it => decide (it.name = name)) = some item)
    (hfalsy : jsTruthy item.id = false)
    (hfuel : coll.length / 100 + 1 ≤ fuel) :
    findApplication coll name fuel = some item.id ∧
    jsTruthy item.id = false ∧
    ∀ createdId : String,
      findOrCreateApplication coll name createdId fuel = some (some createdId, true) := by
  have hfd : findApplication coll name fuel = some item.id := by
    have h := findInAllPages_fixed coll (fun it => decide (it.name = name)) fuel hfuel
    rw [hfind] at h
    simpa using h
  refine ⟨hfd, hfalsy, ?_⟩
  intro c
  unfold findOrCreateApplication
  rw [hfd]
  simp [hfalsy]

/-- Witness for C10: an item named "Test" with an empty-string id is found
(the finder returns the falsy `some ""`), yet the sequence still creates. -/
theorem findApplication_falsy_id_witness :
    findApplication [⟨"Test", some ""⟩] "Test" 1 = some (some "") ∧
    findOrCreateApplication [⟨"Test", some ""⟩] "Test" "new-1" 1
        = some (some "new-1", true) := by
  have h := findApplication_falsy_id [⟨"Test", some ""⟩] "Test" ⟨"Test", some ""⟩ 1
    (by decide) (by decide) (by decide)
  exact ⟨h.1, h.2.2 "new-1"⟩

/-- C1: whenever the polling loop exits with final per-model status list
`L`, the poller aggregates: any `Fail` entry gives
`{success := false, statusId := Fail}` with the raw list attached; else all
entries `UpToDate` gives `{success := true, statusId := UpToDate}`; else
(a mixture of non-failing statuses) `{success := true, statusId := Success}`. -/
theorem trainAndWait_aggregate_classification (polls : Nat → List ModelTrainingStatus)
    (fuel : Nat) (L : List ModelTrainingStatus) (n d : Nat)
    (h : pollLoop polls fuel 0 0 = some (L, n, d)) :
    trainApplicationVersionAndWaitForCompletion TrainingStatus.Queued polls fuel
        = some (classifyTrainingOutcome L, n, d) ∧
    (L.any (fun s => decide (s.details.statusId = TrainingStatus.Fail)) = true →
      classifyTrainingOutcome L
        = { success := false, statusId := TrainingStatus.Fail, status := some L }) ∧
    (L.any (fun s => decide (s.details.statusId = TrainingStatus.Fail)) = false →
      L.all (fun s => decide (s.details.statusId = TrainingStatus.UpToDate)) = true →
      classifyTrainingOutcome L
        = { success := true, statusId := TrainingStatus.UpToDate, status := none }) ∧
    (L.any (fun s => decide (s.details.statusId = TrainingStatus.Fail)) = false →
      L.all (fun s => decide (s.details.statusId = TrainingStatus.UpToDate)) = false →
      classifyTrainingOutcome L
        = { success := true, statusId := TrainingStatus.Success, status := none }) := by
  refine ⟨?_, ?_, ?_, ?_⟩
  · simp [trainApplicationVersionAndWaitForCompletion, h]
  · intro h1; simp [classifyTrainingOutcome, h1]
  · intro h1 h2; simp [classifyTrainingOutcome, h1, h2]
  · intro h1 h2; simp [classifyTrainingOutcome, h1, h2]

/-- Witness for C1: a single poll answering one `Fail` entry makes the loop
exit at once and the poller classify the run as a failure with the raw list
attached. -/
theorem trainAndWait_aggregate_classification_witness :
    trainApplicationVersionAndWaitForCompletion TrainingStatus.Queued
        (fun _ => [⟨⟨TrainingStatus.Fail⟩⟩]) 1
      = some ({ success := false, statusId := TrainingStatus.Fail,
                status := some [⟨⟨TrainingStatus.Fail⟩⟩] }, 1, 500) := by
  have h := trainAndWait_aggregate_classification (fun _ => [⟨⟨TrainingStatus.Fail⟩⟩]) 1
      [⟨⟨TrainingStatus.Fail⟩⟩] 1 500 (by decide)
  rw [h.1, h.2.1 (by decide)]

/-- C2: the poller dispatches on the immediate status of the training-start
call — `UpToDate` gives immediate success with zero status-poll calls;
`Queued` enters the polling loop (the result is the loop's, classified,
with the loop's poll count and delay); every other immediate status gives
`{success := false, statusId := Fail}` with zero status-poll calls. -/
theorem trainAndWait_initial_dispatch (initialStatusId : TrainingStatus)
    (polls : Nat → List ModelTrainingStatus) (fuel : Nat) :
    (initialStatusId = TrainingStatus.UpToDate →
      trainApplicationVersionAndWaitForCompletion initialStatusId polls fuel
        = some ({ success := true, statusId := TrainingStatus.UpToDate, status := none },
            0, 0)) ∧
    (initialStatusId = TrainingStatus.Queued →
      trainApplicationVersionAndWaitForCompletion initialStatusId polls fuel
        = (pollLoop polls fuel 0 0).map
            fun r => (classifyTrainingOutcome r.1, r.2.1, r.2.2)) ∧
    (initialStatusId ≠ TrainingStatus.UpToDate → initialStatusId ≠ TrainingStatus.Queued →
      trainApplicationVersionAndWaitForCompletion initialStatusId polls fuel
        = some ({ success := false, statusId := TrainingStatus.Fail, status := none },
            0, 0)) := by
  refine ⟨?_, ?_, ?_⟩
  · intro h; subst h; rfl
  · intro h; subst h
    rcases hp : pollLoop polls fuel 0 0 with _ | ⟨L, n, d⟩ <;>
      simp [trainApplicationVersionAndWaitForCompletion, hp]
  · intro h1 h2
    simp [trainApplicationVersionAndWaitForCompletion, h1, h2]

/-- Witness for C2: an immediate `Success` status (neither `UpToDate` nor
`Queued`) yields the conservative failure result with zero poll calls. -/
theorem trainAndWait_initial_dispatch_witness :
    trainApplicationVersionAndWaitForCompletion TrainingStatus.Success (fun _ => []) 0
      = some ({ success := false, statusId := TrainingStatus.Fail, status := none }, 0, 0) :=
  (trainAndWait_initial_dispatch TrainingStatus.Success (fun _ => []) 0).2.2
    (by decide) (by decide)

/-- C3: after an immediate `Queued` status the loop runs one fixed 500 ms
delay plus one status fetch per iteration and exits exactly after the first
fetched list with no `InProgress` entry (first conjunct, for any response
sequence); in particular, when the first poll response contains an
`InProgress` entry and the second contains only `Fail` entries, exactly two
status-poll calls are made (with 2 × 500 ms of delay) and the result is
`{success := false, statusId := Fail}` with the raw list attached. -/
theorem trainAndWait_two_poll_fail (polls : Nat → List ModelTrainingStatus) (fuel : Nat)
    (h0 : (polls 0).any
        (fun s => decide (s.details.statusId = TrainingStatus.InProgress)) = true)
    (h1ne : polls 1 ≠ [])
    (h1f : (polls 1).all
        (fun s => decide (s.details.statusId = TrainingStatus.Fail)) = true)
    (hfuel : 2 ≤ fuel) :
    (∀ (qolls : Nat → List ModelTrainingStatus) (k fl : Nat),
      (∀ j, j < k → (qolls j).any
          (fun s => decide (s.details.statusId = TrainingStatus.InProgress)) = true) →
      (qolls k).any
          (fun s => decide (s.details.statusId = TrainingStatus.InProgress)) = false →
      k < fl →
      pollLoop qolls fl 0 0 = some (qolls k, k + 1, 500 * (k + 1))) ∧
    trainApplicationVersionAndWaitForCompletion TrainingStatus.Queued polls fuel
      = some ({ success := false, statusId := TrainingStatus.Fail,
                status := some (polls 1) }, 2, 1000) := by
  constructor
  · intro qolls k fl hA hB hC
    have h := pollLoop_exits qolls k fl 0 0
      (fun j hj => by simpa using hA j hj) (by simpa using hB) hC
    simpa using h
  · have h1ip : (polls 1).any
        (fun s => decide (s.details.statusId = TrainingStatus.InProgress)) = false := by
      rw [List.any_eq_false]
      intro s hs
      have hf := List.all_eq_true.mp h1f s hs
      simp only [decide_eq_true_eq] at hf ⊢
      rw [hf]
      simp
    have hrun : ∀ j, j < 1 → (polls (0 + j)).any
        (fun s => decide (s.details.statusId = TrainingStatus.InProgress)) = true := by
      intro j hj
      have hj0 : j = 0 := by omega
      subst hj0
      simpa using h0
    have hstop : (polls (0 + 1)).any
        (fun s => decide (s.details.statusId = TrainingStatus.InProgress)) = false := by
      simpa using h1ip
    have hploop := pollLoop_exits polls 1 fuel 0 0 hrun hstop (by omega)
    have hfail : (polls 1).any
        (fun s => decide (s.details.statusId = TrainingStatus.Fail)) = true := by
      obtain ⟨s, hs⟩ := List.exists_mem_of_ne_nil (polls 1) h1ne
      rw [List.any_eq_true]
      exact ⟨s, hs, List.all_eq_true.mp h1f s hs⟩
    simp only [Nat.zero_add] at hploop
    simp [trainApplicationVersionAndWaitForCompletion, hploop,
      classifyTrainingOutcome, hfail]

/-- Witness for C3 at a concrete response sequence: first poll in progress,
second poll a single `Fail` entry. -/
theorem trainAndWait_two_poll_fail_witness :
    trainApplicationVersionAndWaitForCompletion TrainingStatus.Queued
        (fun i => if i = 0 then [⟨⟨TrainingStatus.InProgress⟩⟩]
                  else [⟨⟨TrainingStatus.Fail⟩⟩]) 2
      = some ({ success := false, statusId := TrainingStatus.Fail,
                status := some [⟨⟨TrainingStatus.Fail⟩⟩] }, 2, 1000) := by
  have h := (trainAndWait_two_poll_fail
      (fun i => if i = 0 then [⟨⟨TrainingStatus.InProgress⟩⟩]
                else [⟨⟨TrainingStatus.Fail⟩⟩]) 2
      (by decide) (by decide) (by decide) (by omega)).2
  simpa using h

/-- C8: every `TrainingResult` the poller returns satisfies the invariant
that `success` is true exactly when `statusId` is `Success` or `UpToDate`,
and the raw status payload is present only when `success` is false. -/
theorem trainingResult_invariant (initialStatusId : TrainingStatus)
    (polls : Nat → List ModelTrainingStatus) (fuel : Nat) (res : TrainingResult) (n d : Nat)
    (h : trainApplicationVersionAndWaitForCompletion initialStatusId polls fuel
        = some (res, n, d)) :
    (res.success = true ↔
      (res.statusId = TrainingStatus.Success ∨ res.statusId = TrainingStatus.UpToDate)) ∧
    (res.status ≠ none → res.success = false) := by
  simp only [trainApplicationVersionAndWaitForCompletion] at h
  split at h
  · simp only [Option.some.injEq, Prod.mk.injEq] at h
    obtain ⟨h1, -, -⟩ := h
    subst h1
    decide
  · split at h
    · split at h
      · exact absurd h (by simp)
      · simp only [Option.some.injEq, Prod.mk.injEq] at h
        obtain ⟨h1, -, -⟩ := h
        subst h1
        unfold classifyTrainingOutcome
        split
        · simp
        · split <;> simp
    · simp only [Option.some.injEq, Prod.mk.injEq] at h
      obtain ⟨h1, -, -⟩ := h
      subst h1
      decide

/-- Witness for C8: the result of an immediately up-to-date training run
satisfies the invariant. -/
theorem trainingResult_invariant_witness :
    ((TrainingResult.mk true TrainingStatus.UpToDate none).success = true ↔
      ((TrainingResult.mk true TrainingStatus.UpToDate none).statusId
          = TrainingStatus.Success ∨
       (TrainingResult.mk true TrainingStatus.UpToDate none).statusId
          = TrainingStatus.UpToDate)) ∧
    ((TrainingResult.mk true TrainingStatus.UpToDate none).status ≠ none →
      (TrainingResult.mk true TrainingStatus.UpToDate none).success = false) :=
  trainingResult_invariant TrainingStatus.UpToDate (fun _ => []) 0
    (TrainingResult.mk true TrainingStatus.UpToDate none) 0 0 (by decide)

/-- C9: after an immediate `Queued` status, a poll answering an empty
per-model list makes the loop exit on that iteration (an empty list has no
`InProgress` entry) and the overall result is
`{success := true, statusId := UpToDate}`, the every-`UpToDate` check
holding vacuously. -/
theorem trainAndWait_empty_poll_upToDate (polls : Nat → List ModelTrainingStatus)
    (fuel k : Nat)
    (hrun : ∀ j, j < k → (polls j).any
        (fun s => decide (s.details.statusId = TrainingStatus.InProgress)) = true)
    (hk : polls k = [])
    (hfuel : k < fuel) :
    trainApplicationVersionAndWaitForCompletion TrainingStatus.Queued polls fuel
      = some ({ success := true, statusId := TrainingStatus.UpToDate, status := none },
          k + 1, 500 * (k + 1)) := by
  have hstop : (polls (0 + k)).any
      (fun s => decide (s.details.statusId = TrainingStatus.InProgress)) = false := by
    simp [hk]
  have hploop := pollLoop_exits polls k fuel 0 0
    (fun j hj => by simpa using hrun j hj) hstop hfuel
  simp only [Nat.zero_add] at hploop
  simp [trainApplicationVersionAndWaitForCompletion, hploop, classifyTrainingOutcome, hk]

/-- Witness for C9: the very first poll answers the empty list. -/
theorem trainAndWait_empty_poll_upToDate_witness :
    trainApplicationVersionAndWaitForCompletion TrainingStatus.Queued (fun _ => []) 1
      = some ({ success := true, statusId := TrainingStatus.UpToDate, status := none },
          1, 500) := by
  have h := trainAndWait_empty_poll_upToDate (fun _ => []) 1 0
    (fun j hj => absurd hj (by omega)) rfl (by omega)
  simpa using h
